import Mathlib

/-!
# Verification of the DigitalOcean DNS provider adapter

Shallow embedding of `providers/digitalocean/digitalocean.go`
(rancher external-dns provider contract).  The remote backend (godo
client), the rate limiter and the environment are modelled explicitly:

* `DomainRecord` — the backend's native row (`godo.DomainRecord`:
  `ID`, `Name` (relative label or `"@"`), `Type`, `Data`).
* `DnsRecord` — the canonical record (`utils.DnsRecord`:
  `Fqdn`, `Records`, `Type`, `TTL`).
* `World` — the backend's observable behaviour: its current rows, the
  domain-wide TTL, and for each endpoint whether the next call fails
  (and with which error message).  Mutating calls thread the `World`.
* `Ev` — the event trace: one `token` event per `limiter.Wait(1)` and
  one event per outbound backend call, in program order.

Every operation is translated statement-by-statement from the Go source;
errors are `Except String` values carrying the Go error strings.
-/

namespace DigitalOcean

/-- Backend-native DNS row (`godo.DomainRecord`): `id`, relative label
`name` (`"@"` for the apex), record `type`, and one `data` value. -/
structure DomainRecord where
  id : Nat
  name : String
  type : String
  data : String
deriving DecidableEq, Repr

/-- Canonical DNS record (`utils.DnsRecord`): fully-qualified name,
the list of data values sharing that name and type, and the TTL. -/
structure DnsRecord where
  fqdn : String
  records : List String
  type : String
  ttl : Int
deriving DecidableEq, Repr

/-- Trace events: `token` is one `limiter.Wait(1)` acquisition; the
others are the outbound backend calls of the godo client facade. -/
inductive Ev where
  | token : Ev
  | accountGet : Ev
  | domainGet : Ev
  | listRecords : Ev
  | createRecord (name type data : String) : Ev
  | deleteRecord (id : Nat) : Ev
deriving DecidableEq, Repr

/-- Observable backend behaviour: current rows of the zone, the
domain-wide TTL, a fresh-id counter for created rows, and per-endpoint
failure injections (`some e` = the call fails with error `e`). -/
structure World where
  rows : List DomainRecord
  domainTTL : Int
  nextId : Nat
  accountFail : Option String
  domainFail : Option String
  listFail : Option String
  createFail : String → Option String
  deleteFail : Nat → Option String

/-- Outcome of a mutating adapter operation: the returned value or
error, the backend state afterwards, and the emitted event trace. -/
structure Outcome (α : Type) where
  res : Except String α
  world : World
  trace : List Ev

/-- Model of `func (p *DigitalOceanProvider) GetName() string`. -/
def GetName : String := "DigitalOcean"

/-- Model of `fmt.Errorf("%s API call has failed: %v", p.GetName(), err)`. -/
def wrapAPIError (e : String) : String :=
  GetName ++ " API call has failed: " ++ e

/-- Modelled from the spec: `utils.UnFqdn` is not under `src/`; the spec
says Init "normalizes the input domain name (strip trailing dot)". -/
def UnFqdn (s : String) : String :=
  if s.endsWith "." then s.dropRight 1 else s

/-- Modelled from the spec: `utils.Fqdn` is not under `src/`; the spec
describes fully-qualified names with no trailing separator ("a backend
row with label `@` on domain `example.com` must produce fully-qualified
name `example.com`"), so on an already label-joined name the
normalization is the identity. -/
def Fqdn (s : String) : String := s

/-- Adapter configuration established by `Init`: the normalized root
domain name and the domain-wide TTL (`p.rootDomainName`, `p.TTL`). -/
structure Config where
  rootDomainName : String
  TTL : Int
deriving DecidableEq, Repr

/-- Model of `Init(rootDomainName)`: fail with a config error when the `DO_PAT`
credential is absent or empty (before any backend call); otherwise
acquire a token and fetch the account, then acquire a token and fetch
the domain, propagating either failure unwrapped; on success store the
normalized root domain and the domain-wide TTL. -/
def Init (pat : String) (w : World) (rootDomainName : String) :
    Except String Config × List Ev :=
  if pat.length = 0 then
    (.error "DO_PAT is not set", [])
  else
    let root := UnFqdn rootDomainName
    match w.accountFail with
    | some e => (.error e, [Ev.token, Ev.accountGet])
    | none =>
      match w.domainFail with
      | some e => (.error e, [Ev.token, Ev.accountGet, Ev.token, Ev.domainGet])
      | none =>
        (.ok ⟨root, w.domainTTL⟩,
         [Ev.token, Ev.accountGet, Ev.token, Ev.domainGet])

/-- Model of `HealthCheck()`: acquire a token, re-fetch the domain, return the
backend error (unwrapped) or success. -/
def HealthCheck (w : World) : Except String Unit × List Ev :=
  match w.domainFail with
  | some e => (.error e, [Ev.token, Ev.domainGet])
  | none => (.ok (), [Ev.token, Ev.domainGet])

/-- Effect of one successful `CreateRecord` call: the backend appends a
row with a fresh id whose fields are the request's
`{Type: record.Type, Name: record.Fqdn, Data: r}`. -/
def createRow (w : World) (record : DnsRecord) (r : String) : World :=
  { w with
    rows := w.rows ++ [⟨w.nextId, record.fqdn, record.type, r⟩]
    nextId := w.nextId + 1 }

/-- The `for _, r := range record.Records` loop of `AddRecord`: per
value, acquire a token and create one row; on failure return the
wrapped error at once (earlier creates stay applied). -/
def addLoop (record : DnsRecord) : World → List String → Outcome Unit
  | w, [] => ⟨.ok (), w, []⟩
  | w, r :: rest =>
    match w.createFail r with
    | some e =>
      ⟨.error (wrapAPIError e), w,
       [Ev.token, Ev.createRecord record.fqdn record.type r]⟩
    | none =>
      let o := addLoop record (createRow w record r) rest
      ⟨o.res, o.world,
       Ev.token :: Ev.createRecord record.fqdn record.type r :: o.trace⟩

/-- Model of `AddRecord(record)`. -/
def AddRecord (w : World) (record : DnsRecord) : Outcome Unit :=
  addLoop record w record.records

/-- The matching test of `RemoveRecord`'s loop, verbatim from the
source: `rec.Name == record.Fqdn && rec.Type == record.Type` (the raw
backend label is compared, not a label-joined name). -/
def recMatch (record : DnsRecord) (rec : DomainRecord) : Bool :=
  rec.name == record.fqdn && rec.type == record.type

/-- Effect of one successful `DeleteRecord(domain, id)` call. -/
def deleteRow (w : World) (id : Nat) : World :=
  { w with rows := w.rows.filter (fun r => r.id ≠ id) }

/-- The `for _, rec := range records` loop of `RemoveRecord`: for each
row of the listed snapshot that matches, acquire a token and delete it
by id; a delete failure returns the wrapped error at once. -/
def removeLoop (record : DnsRecord) : World → List DomainRecord → Outcome Unit
  | w, [] => ⟨.ok (), w, []⟩
  | w, rec :: rest =>
    if recMatch record rec then
      match w.deleteFail rec.id with
      | some e =>
        ⟨.error (wrapAPIError e), w, [Ev.token, Ev.deleteRecord rec.id]⟩
      | none =>
        let o := removeLoop record (deleteRow w rec.id) rest
        ⟨o.res, o.world, Ev.token :: Ev.deleteRecord rec.id :: o.trace⟩
    else
      removeLoop record w rest

/-- Model of `RemoveRecord(record)`: acquire a token, list the domain's rows
(returning a list failure unwrapped), run the delete loop over the
snapshot; the final `return err` returns the (nil) listing error. -/
def RemoveRecord (w : World) (record : DnsRecord) : Outcome Unit :=
  match w.listFail with
  | some e => ⟨.error e, w, [Ev.token, Ev.listRecords]⟩
  | none =>
    let o := removeLoop record w w.rows
    ⟨o.res, o.world, Ev.token :: Ev.listRecords :: o.trace⟩

/-- Model of `UpdateRecord(record)`: `RemoveRecord` first; on its error return
that error, otherwise return `AddRecord`'s outcome. -/
def UpdateRecord (w : World) (record : DnsRecord) : Outcome Unit :=
  match RemoveRecord w record with
  | ⟨.error e, w', tr⟩ => ⟨.error e, w', tr⟩
  | ⟨.ok _, w', tr⟩ =>
    let o := AddRecord w' record
    ⟨o.res, o.world, tr ++ o.trace⟩

/-! ## GetRecords: label joining, grouping, pagination -/

/-- The inner `map[string][]string` keyed by record type, as an
association list in insertion order. -/
abbrev TypeMap := List (String × List String)

/-- The outer `recordMap` keyed by fqdn. -/
abbrev RecordMap := List (String × TypeMap)

/-- The label-joining step of `GetRecords`: label `"@"` becomes the
root domain itself, any other label is joined with `"."` before it. -/
def joinName (root : String) (r : DomainRecord) : String :=
  if r.name = "@" then root else r.name ++ "." ++ root

/-- Computation `fqdn := utils.Fqdn(r.Name)` after joining. -/
def rowFqdn (root : String) (r : DomainRecord) : String :=
  Fqdn (joinName root r)

/-- Update of the inner type map: append `data` to the slice at `type`
if present, otherwise insert a fresh singleton slice. -/
def updateTypeMap : TypeMap → String → String → TypeMap
  | [], ty, data => [(ty, [data])]
  | (t, vs) :: rest, ty, data =>
    if t = ty then (t, vs ++ [data]) :: rest
    else (t, vs) :: updateTypeMap rest ty data

/-- Update of the outer record map: update the inner map at `fqdn` if
present, otherwise insert a fresh inner map `{type: [data]}`. -/
def updateRecordMap : RecordMap → String → String → String → RecordMap
  | [], fqdn, ty, data => [(fqdn, [(ty, [data])])]
  | (f, s) :: rest, fqdn, ty, data =>
    if f = fqdn then (f, updateTypeMap s ty data) :: rest
    else (f, s) :: updateRecordMap rest fqdn ty data

/-- Processing of one backend row in the listing loop: join its label
and record its data value under `(fqdn, type)`. -/
def processRow (root : String) (m : RecordMap) (r : DomainRecord) : RecordMap :=
  updateRecordMap m (rowFqdn root r) r.type r.data

/-- Processing of one page's rows in encounter order. -/
def processRows (root : String) (m : RecordMap) (rows : List DomainRecord) :
    RecordMap :=
  rows.foldl (processRow root) m

/-- The pagination loop of `GetRecords`: per iteration acquire a token
and fetch one page, fold its rows into the map, and stop when the
response signals the last page (a backend with no pages answers one
empty last page). -/
def pagesLoop (root : String) (m : RecordMap) :
    List (List DomainRecord) → RecordMap × List Ev
  | [] => (m, [Ev.token, Ev.listRecords])
  | [pg] => (processRows root m pg, [Ev.token, Ev.listRecords])
  | pg :: pg' :: rest =>
    let o := pagesLoop root (processRows root m pg) (pg' :: rest)
    (o.1, Ev.token :: Ev.listRecords :: o.2)

/-- The final nested loop of `GetRecords`: one canonical record per
`(fqdn, type)` entry, with the domain-wide TTL. -/
def toDnsRecords (ttl : Int) (m : RecordMap) : List DnsRecord :=
  m.flatMap (fun p => p.2.map (fun q => ⟨p.1, q.2, q.1, ttl⟩))

/-- Model of `GetRecords()` over a backend whose listing is split into `pages`
(success path): drive the pagination loop, then emit the grouped
canonical records. -/
def GetRecords (root : String) (ttl : Int)
    (pages : List (List DomainRecord)) : List DnsRecord × List Ev :=
  let o := pagesLoop root [] pages
  (toDnsRecords ttl o.1, o.2)

/-- Behaviour of one page fetch of the listing endpoint: either a page
of rows, or a backend failure with error `e`. -/
inductive PageResp where
  | rows (pg : List DomainRecord) : PageResp
  | fail (e : String) : PageResp
deriving DecidableEq, Repr

/-- The pagination loop of `GetRecords` with its failure path: per
iteration acquire a token and fetch one page; a fetch failure aborts
at once with the wrapped error (`fmt.Errorf("%s API call has failed:
%v", ...)`), discarding the rows accumulated so far; otherwise fold
the page's rows and stop at the last page. -/
def pagesLoopE (root : String) (m : RecordMap) :
    List PageResp → Except String RecordMap × List Ev
  | [] => (.ok m, [Ev.token, Ev.listRecords])
  | [PageResp.rows pg] => (.ok (processRows root m pg), [Ev.token, Ev.listRecords])
  | [PageResp.fail e] => (.error (wrapAPIError e), [Ev.token, Ev.listRecords])
  | PageResp.fail e :: _ :: _ => (.error (wrapAPIError e), [Ev.token, Ev.listRecords])
  | PageResp.rows pg :: r :: rest =>
    let o := pagesLoopE root (processRows root m pg) (r :: rest)
    (o.1, Ev.token :: Ev.listRecords :: o.2)

/-- Model of `GetRecords()` including the failure path: on a page-fetch
failure the wrapped error is returned and no partial record list is
emitted (`return nil, fmt.Errorf(...)`); `GetRecords` above is the
all-pages-succeed instance of this loop. -/
def GetRecordsE (root : String) (ttl : Int)
    (pages : List PageResp) : Except String (List DnsRecord) × List Ev :=
  let o := pagesLoopE root [] pages
  (o.1.map (toDnsRecords ttl), o.2)

deriving instance DecidableEq for Except

/-! ## Helper lemmas -/

/-- Successive deletion of the listed rows' ids. -/
def removeAll (w : World) (l : List DomainRecord) : World :=
  l.foldl (fun w r => deleteRow w r.id) w

/-- Successive creation of rows for the given data values. -/
def createAll (w : World) (record : DnsRecord) (l : List String) : World :=
  l.foldl (fun w r => createRow w record r) w

/-- Whether the first character list is an initial segment of the
second. -/
def charsStartWith : List Char → List Char → Bool
  | [], _ => true
  | _ :: _, [] => false
  | a :: as, b :: bs => a == b && charsStartWith as bs

/-- Whether the first character list occurs contiguously inside the
second. -/
def charsContain (sub : List Char) : List Char → Bool
  | [] => charsStartWith sub []
  | b :: bs => charsStartWith sub (b :: bs) || charsContain sub bs

/-- The adapter's identifying name occurs in the string. -/
def containsName (s : String) : Bool :=
  charsContain GetName.toList s.toList

/-- A backend whose record listing fails with error `"x"` and whose
other endpoints succeed. -/
def wListFail : World :=
  { rows := [], domainTTL := 1800, nextId := 0, accountFail := none,
    domainFail := none, listFail := some "x",
    createFail := fun _ => none, deleteFail := fun _ => none }

/-- A canonical A record with a single value. -/
def recA : DnsRecord := ⟨"a.example.com", ["1.1.1.1"], "A", 300⟩

/-- A canonical record with an empty values sequence. -/
def recEmpty : DnsRecord := ⟨"a.example.com", [], "A", 300⟩

/-- A backend row matching `recATwo` (id 1). -/
def rowA1 : DomainRecord := ⟨1, "a.example.com", "A", "1.1.1.1"⟩

/-- A second backend row matching `recATwo` (id 2). -/
def rowA2 : DomainRecord := ⟨2, "a.example.com", "A", "2.2.2.2"⟩

/-- A third backend row matching `recATwo` (id 3). -/
def rowA3 : DomainRecord := ⟨3, "a.example.com", "A", "3.3.3.3"⟩

/-- The canonical record whose fqdn and type both rows carry. -/
def recATwo : DnsRecord := ⟨"a.example.com", ["1.1.1.1", "2.2.2.2"], "A", 300⟩

/-- A backend where deleting row 1 fails with `"e1"` and deleting
row 2 fails with `"e2"`. -/
def wTwoFail : World :=
  { rows := [rowA1, rowA2], domainTTL := 1800, nextId := 10,
    accountFail := none, domainFail := none, listFail := none,
    createFail := fun _ => none,
    deleteFail := fun id =>
      if id = 1 then some "e1" else if id = 2 then some "e2" else none }

/-- A backend where deleting row 2 fails with `"e2"` and all other
deletes succeed. -/
def wDelFail2 : World :=
  { rows := [rowA1, rowA2, rowA3], domainTTL := 1800, nextId := 10,
    accountFail := none, domainFail := none, listFail := none,
    createFail := fun _ => none,
    deleteFail := fun id => if id = 2 then some "e2" else none }

/-- A backend row with the relative label `www`, as the listing
endpoint returns rows (labels, not fully-qualified names). -/
def rowWww : DomainRecord := ⟨7, "www", "A", "1.2.3.4"⟩

/-- A healthy backend holding only `rowWww`. -/
def wWww : World :=
  { rows := [rowWww], domainTTL := 1800, nextId := 10,
    accountFail := none, domainFail := none, listFail := none,
    createFail := fun _ => none, deleteFail := fun _ => none }

/-- The canonical record for `rowWww` under root `example.com`, as
`GetRecords` would report it. -/
def recWww : DnsRecord := ⟨"www.example.com", ["1.2.3.4"], "A", 1800⟩

/-- A backend whose domain lookup fails with `"boom"`. -/
def wDomainFail : World :=
  { rows := [], domainTTL := 0, nextId := 0, accountFail := none,
    domainFail := some "boom", listFail := none,
    createFail := fun _ => none, deleteFail := fun _ => none }

/-- A backend where creating the value `"1.1.1.1"` fails with
`"boom2"`. -/
def wCreateFail : World :=
  { rows := [], domainTTL := 0, nextId := 0, accountFail := none,
    domainFail := none, listFail := none,
    createFail := fun v => if v = "1.1.1.1" then some "boom2" else none,
    deleteFail := fun _ => none }

/-- A trace obeys the rate-limiting discipline: it is a sequence of
pairs, each one `token` acquisition immediately followed by one
backend call (never two tokens in a row, never a call without its own
immediately preceding token). -/
inductive Gated : List Ev → Prop
  | nil : Gated []
  | pair (e : Ev) (t : List Ev) (hne : e ≠ Ev.token) (ht : Gated t) :
      Gated (Ev.token :: e :: t)

/-- Lookup of the values slice at a type in the inner map (`[]` when
the type is absent). -/
def findTM : TypeMap → String → List String
  | [], _ => []
  | (t, vs) :: rest, ty => if t = ty then vs else findTM rest ty

/-- Lookup of the inner type map at an fqdn (`[]` when absent). -/
def findRM : RecordMap → String → TypeMap
  | [], _ => []
  | (f, s) :: rest, fqdn => if f = fqdn then s else findRM rest fqdn

/-- The Bool test "row `r` belongs to group `(fq, ty)`". -/
def rowKeyIs (root fq ty : String) (r : DomainRecord) : Bool :=
  rowFqdn root r == fq && r.type == ty

/-- Well-formed inner map: distinct type keys, nonempty value slices. -/
def WFTM (s : TypeMap) : Prop :=
  (s.map Prod.fst).Nodup ∧ ∀ q ∈ s, q.2 ≠ []

/-- Well-formed outer map: distinct fqdn keys, well-formed inner maps. -/
def WFRM (m : RecordMap) : Prop :=
  (m.map Prod.fst).Nodup ∧ ∀ p ∈ m, WFTM p.2

/-- The spec's grouping example: two `www`/`A` rows with different
data values. -/
def rowsW : List DomainRecord :=
  [⟨1, "www", "A", "1.2.3.4"⟩, ⟨2, "www", "A", "5.6.7.8"⟩]

/-- The single canonical record the two `rowsW` rows aggregate into. -/
def recWgroup : DnsRecord := ⟨"www.example.com", ["1.2.3.4", "5.6.7.8"], "A", 1800⟩

/-- The delete loop emits only token and delete-record events. -/
theorem removeLoop_trace_no_create (record : DnsRecord) (n t d : String) :
    ∀ (rows : List DomainRecord) (w : World),
      Ev.createRecord n t d ∉ (removeLoop record w rows).trace := by
  intro rows
  induction rows with
  | nil => intro w; simp [removeLoop]
  | cons rec rest ih =>
    intro w
    cases h : recMatch record rec with
    | false => simpa [removeLoop, h] using ih w
    | true =>
      cases hd : w.deleteFail rec.id with
      | some e => simp [removeLoop, h, hd]
      | none => simpa [removeLoop, h, hd] using ih (deleteRow w rec.id)

/-- Operation `RemoveRecord` never issues a create-record call. -/
theorem removeRecord_trace_no_create (w : World) (record : DnsRecord)
    (n t d : String) :
    Ev.createRecord n t d ∉ (RemoveRecord w record).trace := by
  cases hl : w.listFail with
  | some e => simp [RemoveRecord, hl]
  | none =>
    simpa [RemoveRecord, hl] using
      removeLoop_trace_no_create record n t d w.rows w

/-- Deleting rows only shrinks the backend's row set. -/
theorem removeAll_rows_subset (l : List DomainRecord) :
    ∀ (w : World), (removeAll w l).rows ⊆ w.rows := by
  induction l with
  | nil => intro w; simp [removeAll]
  | cons r l ih =>
    intro w row hrow
    have hrow' : row ∈ (deleteRow w r.id).rows :=
      ih (deleteRow w r.id) (by simpa [removeAll] using hrow)
    simp only [deleteRow, List.mem_filter] at hrow'
    exact hrow'.1

/-- A row whose id was deleted is absent from the final backend state. -/
theorem removeAll_deleted (l : List DomainRecord) :
    ∀ (w : World) (r : DomainRecord), r ∈ l →
      ∀ row ∈ (removeAll w l).rows, row.id ≠ r.id := by
  induction l with
  | nil => intro w r h; simp at h
  | cons r' l ih =>
    intro w r h row hrow
    rcases List.mem_cons.mp h with h1 | h2
    · subst h1
      have hsub : row ∈ (deleteRow w r.id).rows :=
        removeAll_rows_subset l (deleteRow w r.id)
          (by simpa [removeAll] using hrow)
      simp only [deleteRow, List.mem_filter, decide_not,
        Bool.not_eq_eq_eq_not, Bool.not_true, decide_eq_false_iff_not] at hsub
      exact hsub.2
    · exact ih (deleteRow w r'.id) r h2 row (by simpa [removeAll] using hrow)

/-- Characterization of the delete loop at the first failing delete:
with `a` the prefix of the snapshot whose matching rows all delete
successfully and `f` the first row whose delete fails, the loop stops
at `f`, returns the wrapped error of `f`'s failure, applies exactly the
deletions of the matched prefix, and emits one token-gated delete call
per matched prefix row plus one for `f`. -/
theorem removeLoop_first_failure (record : DnsRecord) (f : DomainRecord)
    (e : String) (a : List DomainRecord) :
    ∀ (b : List DomainRecord) (w : World),
      (∀ r ∈ a, recMatch record r = true → w.deleteFail r.id = none) →
      recMatch record f = true → w.deleteFail f.id = some e →
      removeLoop record w (a ++ f :: b) =
        ⟨.error (wrapAPIError e), removeAll w (a.filter (recMatch record)),
         (a.filter (recMatch record)).flatMap
             (fun r => [Ev.token, Ev.deleteRecord r.id])
           ++ [Ev.token, Ev.deleteRecord f.id]⟩ := by
  induction a with
  | nil =>
    intro b w _ hf hfe
    simp [removeLoop, hf, hfe, removeAll]
  | cons r rest ih =>
    intro b w ha hf hfe
    cases hm : recMatch record r with
    | false =>
      have h := ih b w (fun x hx hmx => ha x (List.mem_cons_of_mem _ hx) hmx)
        hf hfe
      simpa [removeLoop, hm] using h
    | true =>
      have hdn : w.deleteFail r.id = none := ha r (List.mem_cons_self _ _) hm
      have h := ih b (deleteRow w r.id)
        (fun x hx hmx => ha x (List.mem_cons_of_mem _ hx) hmx) hf hfe
      simp only [List.cons_append, removeLoop, hm, if_true, hdn]
      simp [removeAll, h, hm]

/-- Characterization of the create loop at the first failing create:
with `a` the prefix of values that create successfully and `v` the
first failing value, the loop stops at `v`, returns the wrapped error,
applies exactly the creations of the prefix, and emits one token-gated
create call per prefix value plus one for `v`. -/
theorem addLoop_first_failure (record : DnsRecord) (v e : String)
    (a : List String) :
    ∀ (b : List String) (w : World),
      (∀ u ∈ a, w.createFail u = none) → w.createFail v = some e →
      addLoop record w (a ++ v :: b) =
        ⟨.error (wrapAPIError e), createAll w record a,
         a.flatMap
             (fun u => [Ev.token, Ev.createRecord record.fqdn record.type u])
           ++ [Ev.token, Ev.createRecord record.fqdn record.type v]⟩ := by
  induction a with
  | nil =>
    intro b w _ hve
    simp [addLoop, hve, createAll]
  | cons u rest ih =>
    intro b w ha hve
    have hun : w.createFail u = none := ha u (List.mem_cons_self _ _)
    have h := ih b (createRow w record u)
      (fun x hx => ha x (List.mem_cons_of_mem _ hx)) hve
    simp only [List.cons_append, addLoop, hun]
    simp [createAll, h]

/-! ## Example inputs used by witnesses -/

/-! ## C1 -/

/-- C1 counterexample: two matching rows whose deletes fail with
`"e1"` and `"e2"` respectively.  The loop stops at the first failure:
the returned error wraps `"e1"` (the first, not the last, failure),
row 2's delete is never attempted, and row 2 is still present. -/
theorem removeRecord_continues_counterexample :
    (RemoveRecord wTwoFail recATwo).res = .error (wrapAPIError "e1") ∧
    Ev.deleteRecord 2 ∉ (RemoveRecord wTwoFail recATwo).trace ∧
    (RemoveRecord wTwoFail recATwo).res ≠ .error (wrapAPIError "e2") ∧
    rowA2 ∈ (RemoveRecord wTwoFail recATwo).world.rows := by
  decide

/-- C1 amended: when a delete fails, `RemoveRecord` stops at the first
failing delete — it returns an error wrapping that first failure,
issues no delete call for any later row, and the matching rows deleted
before the failure remain deleted. -/
theorem removeRecord_stops_at_first_failed_delete (w : World)
    (record : DnsRecord) (a : List DomainRecord) (f : DomainRecord)
    (b : List DomainRecord) (e : String)
    (hrows : w.rows = a ++ f :: b) (hl : w.listFail = none)
    (ha : ∀ r ∈ a, recMatch record r = true → w.deleteFail r.id = none)
    (hf : recMatch record f = true) (hfe : w.deleteFail f.id = some e) :
    (RemoveRecord w record).res = .error (wrapAPIError e) ∧
    (RemoveRecord w record).trace =
      Ev.token :: Ev.listRecords ::
        ((a.filter (recMatch record)).flatMap
            (fun r => [Ev.token, Ev.deleteRecord r.id])
          ++ [Ev.token, Ev.deleteRecord f.id]) ∧
    (RemoveRecord w record).world =
      removeAll w (a.filter (recMatch record)) ∧
    ∀ r ∈ a.filter (recMatch record),
      ∀ row ∈ (RemoveRecord w record).world.rows, row.id ≠ r.id := by
  have hloop := removeLoop_first_failure record f e a b w ha hf hfe
  have hrr : RemoveRecord w record =
      ⟨.error (wrapAPIError e), removeAll w (a.filter (recMatch record)),
       Ev.token :: Ev.listRecords ::
         ((a.filter (recMatch record)).flatMap
             (fun r => [Ev.token, Ev.deleteRecord r.id])
           ++ [Ev.token, Ev.deleteRecord f.id])⟩ := by
    simp only [RemoveRecord, hl, hrows, hloop]
  refine ⟨by rw [hrr], by rw [hrr], by rw [hrr], ?_⟩
  intro r hr row hrow
  rw [hrr] at hrow
  exact removeAll_deleted _ w r hr row hrow

/-- Witness for the amended C1: row 1's delete succeeds, row 2's delete
fails; `RemoveRecord` returns the wrapped `"e2"`, never touches row 3,
and row 1 stays deleted. -/
theorem removeRecord_stops_at_first_failed_delete_witness :
    (RemoveRecord wDelFail2 recATwo).res = .error (wrapAPIError "e2") ∧
    (RemoveRecord wDelFail2 recATwo).trace =
      [Ev.token, Ev.listRecords, Ev.token, Ev.deleteRecord 1,
       Ev.token, Ev.deleteRecord 2] ∧
    ∀ row ∈ (RemoveRecord wDelFail2 recATwo).world.rows, row.id ≠ 1 := by
  have h := removeRecord_stops_at_first_failed_delete wDelFail2 recATwo
    [rowA1] rowA2 [rowA3] "e2" rfl rfl (by decide) (by decide) rfl
  refine ⟨h.1, by rw [h.2.1]; decide, ?_⟩
  intro row hrow
  exact h.2.2.2 rowA1 (by decide) row hrow

/-! ## C2 -/

/-- C2 (code bug): the backend row `www` has label-joined name
`www.example.com` and type `A`, exactly the target record's fqdn and
type, yet `RemoveRecord` deletes nothing: its loop compares the raw
backend label (`rec.Name`, here `"www"`) against the target's fqdn
without joining the root domain, so the match is false, no delete call
is issued, and the row survives. -/
theorem removeRecord_raw_label_comparison_bug :
    rowFqdn "example.com" rowWww = recWww.fqdn ∧
    rowWww.type = recWww.type ∧
    rowWww ∈ wWww.rows ∧
    recMatch recWww rowWww = false ∧
    (RemoveRecord wWww recWww).res = .ok () ∧
    (RemoveRecord wWww recWww).trace = [Ev.token, Ev.listRecords] ∧
    rowWww ∈ (RemoveRecord wWww recWww).world.rows := by
  decide

/-! ## C8 -/

/-- C8 counterexample: `HealthCheck` on a failing domain lookup
returns the backend error `"boom"` verbatim — it does not mention the
adapter's identifying name and is not the wrapped form. -/
theorem errors_unwrapped_counterexample :
    (HealthCheck wDomainFail).1 = .error "boom" ∧
    containsName "boom" = false ∧
    (HealthCheck wDomainFail).1 ≠ .error (wrapAPIError "boom") := by
  decide

/-- A failing page fetch aborts the pagination loop with the wrapped
error, whatever successful pages preceded it. -/
theorem pagesLoopE_first_failure (root : String) (e : String) :
    ∀ (pre : List (List DomainRecord)) (rest : List PageResp) (m : RecordMap),
      (pagesLoopE root m
          (pre.map PageResp.rows ++ PageResp.fail e :: rest)).1 =
        .error (wrapAPIError e) := by
  intro pre
  induction pre with
  | nil => intro rest m; cases rest <;> simp [pagesLoopE]
  | cons pg pre' ih =>
    intro rest m
    cases hp : pre'.map PageResp.rows ++ PageResp.fail e :: rest with
    | nil => simp at hp
    | cons r rs =>
      rw [List.map_cons, List.cons_append, hp]
      simp only [pagesLoopE]
      rw [← hp]
      exact ih rest (processRows root m pg)

/-- On a backend whose page fetches all succeed, the failure-aware
pagination loop returns ok with exactly the success-path loop's map
and trace (so `GetRecords` is its all-pages-succeed instance). -/
theorem pagesLoopE_all_rows (root : String) :
    ∀ (pages : List (List DomainRecord)) (m : RecordMap),
      pagesLoopE root m (pages.map PageResp.rows) =
        (.ok (pagesLoop root m pages).1, (pagesLoop root m pages).2) := by
  intro pages
  induction pages with
  | nil => intro m; simp [pagesLoopE, pagesLoop]
  | cons pg rest ih =>
    intro m
    cases rest with
    | nil => simp [pagesLoopE, pagesLoop]
    | cons pg' rest' =>
      simp only [List.map_cons, pagesLoopE, pagesLoop]
      rw [← List.map_cons, ih (processRows root m pg)]

/-- C8 amended: no backend failure is swallowed — a failing call makes
the operation return an error. `AddRecord`'s create failures,
`RemoveRecord`'s delete failures, and `GetRecords`' page-fetch
failures are wrapped with the adapter's identifying name, while
`Init`'s account and domain lookups, `HealthCheck`, and
`RemoveRecord`'s listing return the backend error unwrapped. -/
theorem error_propagation (pat : String) (w : World) (root : String)
    (ttl : Int) (record : DnsRecord) (hpat : ¬pat.length = 0) :
    (∀ e, w.accountFail = some e → (Init pat w root).1 = .error e) ∧
    (∀ e, w.accountFail = none → w.domainFail = some e →
        (Init pat w root).1 = .error e) ∧
    (∀ e, w.domainFail = some e → (HealthCheck w).1 = .error e) ∧
    (∀ e, w.listFail = some e → (RemoveRecord w record).res = .error e) ∧
    (∀ a v b e, record.records = a ++ v :: b →
        (∀ u ∈ a, w.createFail u = none) → w.createFail v = some e →
        (AddRecord w record).res = .error (wrapAPIError e)) ∧
    (∀ a f b e, w.rows = a ++ f :: b → w.listFail = none →
        (∀ r ∈ a, recMatch record r = true → w.deleteFail r.id = none) →
        recMatch record f = true → w.deleteFail f.id = some e →
        (RemoveRecord w record).res = .error (wrapAPIError e)) ∧
    (∀ (pre : List (List DomainRecord)) (rest : List PageResp) e,
        (GetRecordsE root ttl
            (pre.map PageResp.rows ++ PageResp.fail e :: rest)).1 =
          .error (wrapAPIError e)) := by
  refine ⟨?_, ?_, ?_, ?_, ?_, ?_, ?_⟩
  · intro e he; simp [Init, hpat, he]
  · intro e ha hd; simp [Init, hpat, ha, hd]
  · intro e he; simp [HealthCheck, he]
  · intro e he; simp [RemoveRecord, he]
  · intro a v b e hrec ha hve
    have h := addLoop_first_failure record v e a b w ha hve
    simp [AddRecord, hrec, h]
  · intro a f b e hrows hl ha hf hfe
    have h := removeLoop_first_failure record f e a b w ha hf hfe
    simp [RemoveRecord, hl, hrows, h]
  · intro pre rest e
    have h := pagesLoopE_first_failure root e pre rest []
    simp [GetRecordsE, h, Except.map]

/-- Witness for the amended C8: a raw `HealthCheck` error, a wrapped
`AddRecord` error, and a wrapped `GetRecords` page-fetch error at
concrete inputs. -/
theorem error_propagation_witness :
    (HealthCheck wDomainFail).1 = .error "boom" ∧
    (AddRecord wCreateFail recA).res = .error (wrapAPIError "boom2") ∧
    (GetRecordsE "example.com" 1800 [PageResp.fail "pboom"]).1 =
      .error (wrapAPIError "pboom") := by
  refine ⟨(error_propagation "tok" wDomainFail "example.com" 1800 recA
    (by decide)).2.2.1 "boom" rfl, ?_, ?_⟩
  · exact (error_propagation "tok" wCreateFail "example.com" 1800 recA
      (by decide)).2.2.2.2.1 [] "1.1.1.1" [] "boom2" rfl (by simp) rfl
  · exact (error_propagation "tok" wDomainFail "example.com" 1800 recA
      (by decide)).2.2.2.2.2.2 [] [] "pboom"

/-! ## C10 -/

/-- C10: `AddRecord` on a record whose values sequence is empty makes
zero backend calls, returns ok, and leaves the backend unchanged. -/
theorem addRecord_empty_values (w : World) (record : DnsRecord)
    (h : record.records = []) :
    AddRecord w record = ⟨.ok (), w, []⟩ := by
  simp [AddRecord, h, addLoop]

/-- Witness for C10 at a concrete empty-valued record. -/
theorem addRecord_empty_values_witness :
    AddRecord wListFail recEmpty = ⟨.ok (), wListFail, []⟩ :=
  addRecord_empty_values wListFail recEmpty rfl

/-! ## C7 -/

/-- C7: when the `DO_PAT` credential is absent or empty, `Init` fails
with the configuration error and the trace is empty — no token is
acquired and no backend call is made. -/
theorem init_no_credential (pat : String) (w : World) (root : String)
    (h : pat.length = 0) :
    (Init pat w root).1 = .error "DO_PAT is not set" ∧
    (Init pat w root).2 = [] := by
  simp [Init, h]

/-- Witness for C7 with the empty credential. -/
theorem init_no_credential_witness :
    (Init "" wListFail "example.com").1 = .error "DO_PAT is not set" ∧
    (Init "" wListFail "example.com").2 = [] :=
  init_no_credential "" wListFail "example.com" rfl

/-! ## C6 -/

/-- C6: `UpdateRecord` is exactly `RemoveRecord` followed by
`AddRecord`: a remove failure is returned as is and no create-record
call is ever issued, while after a successful remove the outcome
(result, backend state and appended trace) is exactly `AddRecord`'s on
the post-remove state — in particular nothing runs after a failing
`AddRecord`, so no compensating action restores removed values. -/
theorem updateRecord_is_remove_then_add (w : World) (record : DnsRecord) :
    (∀ e, (RemoveRecord w record).res = .error e →
        UpdateRecord w record =
          ⟨.error e, (RemoveRecord w record).world,
           (RemoveRecord w record).trace⟩ ∧
        ∀ n t d, Ev.createRecord n t d ∉ (UpdateRecord w record).trace) ∧
    ((RemoveRecord w record).res = .ok () →
        UpdateRecord w record =
          ⟨(AddRecord (RemoveRecord w record).world record).res,
           (AddRecord (RemoveRecord w record).world record).world,
           (RemoveRecord w record).trace ++
             (AddRecord (RemoveRecord w record).world record).trace⟩) := by
  have hnc := removeRecord_trace_no_create w record
  cases hR : RemoveRecord w record with
  | mk res w' tr =>
    rw [hR] at hnc
    cases res with
    | error e' =>
      refine ⟨fun e he => ?_, fun hok => ?_⟩
      · simp only at he hnc ⊢
        rw [Except.error.injEq] at he
        subst he
        simp only [UpdateRecord, hR]
        exact ⟨trivial, hnc⟩
      · simp only at hok
        exact absurd hok (by simp)
    | ok u =>
      cases u
      refine ⟨fun e he => ?_, fun _ => ?_⟩
      · simp only at he
        exact absurd he (by simp)
      · simp only [UpdateRecord, hR]

/-- Witness for C6: with a failing record listing, `UpdateRecord`
returns the listing error and never issues a create-record call. -/
theorem updateRecord_is_remove_then_add_witness :
    UpdateRecord wListFail recA =
      ⟨.error "x", (RemoveRecord wListFail recA).world,
       (RemoveRecord wListFail recA).trace⟩ ∧
    Ev.createRecord "a.example.com" "A" "1.1.1.1" ∉
      (UpdateRecord wListFail recA).trace := by
  have h := (updateRecord_is_remove_then_add wListFail recA).1 "x" rfl
  exact ⟨h.1, h.2 "a.example.com" "A" "1.1.1.1"⟩

/-! ## C9 -/

/-- Concatenation of gated traces is gated. -/
theorem Gated.append {t₁ t₂ : List Ev} (h₁ : Gated t₁) (h₂ : Gated t₂) :
    Gated (t₁ ++ t₂) := by
  induction h₁ with
  | nil => simpa using h₂
  | pair e t hne ht ih => exact Gated.pair e (t ++ t₂) hne ih

/-- The create loop's trace is gated. -/
theorem addLoop_gated (record : DnsRecord) :
    ∀ (l : List String) (w : World), Gated (addLoop record w l).trace := by
  intro l
  induction l with
  | nil => intro w; exact Gated.nil
  | cons r rest ih =>
    intro w
    cases hc : w.createFail r with
    | some e =>
      simp only [addLoop, hc]
      exact Gated.pair _ _ (by simp) Gated.nil
    | none =>
      simp only [addLoop, hc]
      exact Gated.pair _ _ (by simp) (ih (createRow w record r))

/-- The delete loop's trace is gated. -/
theorem removeLoop_gated (record : DnsRecord) :
    ∀ (rows : List DomainRecord) (w : World),
      Gated (removeLoop record w rows).trace := by
  intro rows
  induction rows with
  | nil => intro w; exact Gated.nil
  | cons rec rest ih =>
    intro w
    cases hm : recMatch record rec with
    | false => simpa only [removeLoop, hm, Bool.false_eq_true, if_false] using ih w
    | true =>
      cases hd : w.deleteFail rec.id with
      | some e =>
        simp only [removeLoop, hm, if_true, hd]
        exact Gated.pair _ _ (by simp) Gated.nil
      | none =>
        simp only [removeLoop, hm, if_true, hd]
        exact Gated.pair _ _ (by simp) (ih (deleteRow w rec.id))

/-- Operation trace of `RemoveRecord` is gated. -/
theorem removeRecord_gated (w : World) (record : DnsRecord) :
    Gated (RemoveRecord w record).trace := by
  cases hl : w.listFail with
  | some e =>
    simp only [RemoveRecord, hl]
    exact Gated.pair _ _ (by simp) Gated.nil
  | none =>
    simp only [RemoveRecord, hl]
    exact Gated.pair _ _ (by simp) (removeLoop_gated record w.rows w)

/-- The pagination loop's trace is gated. -/
theorem pagesLoop_gated (root : String) :
    ∀ (pages : List (List DomainRecord)) (m : RecordMap),
      Gated (pagesLoop root m pages).2 := by
  intro pages
  induction pages with
  | nil =>
    intro m
    exact Gated.pair _ _ (by simp) Gated.nil
  | cons pg rest ih =>
    intro m
    cases rest with
    | nil => exact Gated.pair _ _ (by simp) Gated.nil
    | cons pg' rest' =>
      simp only [pagesLoop]
      exact Gated.pair _ _ (by simp) (ih (processRows root m pg))

/-- C9: in every adapter operation — `Init`, `HealthCheck`,
`AddRecord`, `RemoveRecord`, `UpdateRecord` (including the calls its
inner remove and add make) and `GetRecords` over any pagination — every
outbound backend call is immediately preceded by acquiring exactly one
token, and tokens are acquired only for such calls. -/
theorem every_call_rate_gated (pat : String) (w : World) (root : String)
    (ttl : Int) (record : DnsRecord) (pages : List (List DomainRecord)) :
    Gated (Init pat w root).2 ∧ Gated (HealthCheck w).2 ∧
    Gated (AddRecord w record).trace ∧
    Gated (RemoveRecord w record).trace ∧
    Gated (UpdateRecord w record).trace ∧
    Gated (GetRecords root ttl pages).2 := by
  refine ⟨?_, ?_, addLoop_gated record record.records w,
    removeRecord_gated w record, ?_, ?_⟩
  · unfold Init
    by_cases hp : pat.length = 0
    · rw [if_pos hp]
      exact Gated.nil
    · rw [if_neg hp]
      cases ha : w.accountFail with
      | some e => exact Gated.pair _ _ (by simp) Gated.nil
      | none =>
        cases hd : w.domainFail with
        | some e =>
          exact Gated.pair _ _ (by simp)
            (Gated.pair _ _ (by simp) Gated.nil)
        | none =>
          exact Gated.pair _ _ (by simp)
            (Gated.pair _ _ (by simp) Gated.nil)
  · unfold HealthCheck
    cases hd : w.domainFail with
    | some e => exact Gated.pair _ _ (by simp) Gated.nil
    | none => exact Gated.pair _ _ (by simp) Gated.nil
  · cases hR : RemoveRecord w record with
    | mk res w' tr =>
      have hg : Gated tr := by
        have h := removeRecord_gated w record
        rwa [hR] at h
      cases res with
      | error e => simp only [UpdateRecord, hR]; exact hg
      | ok u =>
        simp only [UpdateRecord, hR]
        exact Gated.append hg (addLoop_gated record record.records w')
  · simp only [GetRecords]
    exact pagesLoop_gated root pages []

/-! ## C3 and C5: label joining and pagination -/

/-- Folding one page after another is folding their concatenation. -/
theorem processRows_append (root : String) (l1 l2 : List DomainRecord)
    (m : RecordMap) :
    processRows root m (l1 ++ l2) = processRows root (processRows root m l1) l2 := by
  simp [processRows, List.foldl_append]

/-- The pagination loop aggregates exactly the concatenation of all
pages (the accumulated map is independent of the page split). -/
theorem pagesLoop_map_eq (root : String) :
    ∀ (pages : List (List DomainRecord)) (m : RecordMap),
      (pagesLoop root m pages).1 = processRows root m pages.flatten := by
  intro pages
  induction pages with
  | nil => intro m; simp [pagesLoop, processRows]
  | cons pg rest ih =>
    intro m
    cases rest with
    | nil => simp [pagesLoop, processRows]
    | cons pg' rest' =>
      simp only [pagesLoop, ih (processRows root m pg), List.flatten_cons,
        processRows_append]

/-- C3: under root domain `example.com`, a backend row with label `"@"`
yields the canonical fully-qualified name `example.com` itself, a row
with label `www` yields exactly `www.example.com`, and in general any
non-apex label is joined to the root domain with a single `.`
separator. -/
theorem getRecords_apex_mapping (ttl : Int) (id : Nat)
    (ty data label : String) (hl : label ≠ "@") :
    (GetRecords "example.com" ttl [[⟨id, "@", ty, data⟩]]).1 =
      [⟨"example.com", [data], ty, ttl⟩] ∧
    (GetRecords "example.com" ttl [[⟨id, "www", ty, data⟩]]).1 =
      [⟨"www.example.com", [data], ty, ttl⟩] ∧
    (GetRecords "example.com" ttl [[⟨id, label, ty, data⟩]]).1 =
      [⟨label ++ "." ++ "example.com", [data], ty, ttl⟩] := by
  refine ⟨rfl, rfl, ?_⟩
  simp [GetRecords, pagesLoop, processRows, processRow, rowFqdn, joinName,
    Fqdn, updateRecordMap, updateTypeMap, toDnsRecords, hl]

/-- Witness for C3 with the non-apex label `www`. -/
theorem getRecords_apex_mapping_witness :
    (GetRecords "example.com" 1800 [[⟨7, "@", "A", "9.9.9.9"⟩]]).1 =
      [⟨"example.com", ["9.9.9.9"], "A", 1800⟩] ∧
    (GetRecords "example.com" 1800 [[⟨7, "www", "A", "9.9.9.9"⟩]]).1 =
      [⟨"www.example.com", ["9.9.9.9"], "A", 1800⟩] := by
  have h := getRecords_apex_mapping 1800 7 "A" "9.9.9.9" "www" (by decide)
  exact ⟨h.1, h.2.1⟩

/-- C5: a listing split across three pages yields exactly the same
canonical record collection as the same rows in a single page (hence
set-equality), and the three-page run issues exactly three token-gated
page fetches while the one-page run issues one. -/
theorem getRecords_pagination (root : String) (ttl : Int)
    (p1 p2 p3 : List DomainRecord) :
    (GetRecords root ttl [p1, p2, p3]).1 =
      (GetRecords root ttl [p1 ++ p2 ++ p3]).1 ∧
    (∀ x, x ∈ (GetRecords root ttl [p1, p2, p3]).1 ↔
        x ∈ (GetRecords root ttl [p1 ++ p2 ++ p3]).1) ∧
    (GetRecords root ttl [p1, p2, p3]).2 =
      [Ev.token, Ev.listRecords, Ev.token, Ev.listRecords,
       Ev.token, Ev.listRecords] ∧
    (GetRecords root ttl [p1 ++ p2 ++ p3]).2 = [Ev.token, Ev.listRecords] := by
  have h1 : (GetRecords root ttl [p1, p2, p3]).1 =
      (GetRecords root ttl [p1 ++ p2 ++ p3]).1 := by
    simp [GetRecords, pagesLoop_map_eq, List.append_assoc]
  exact ⟨h1, fun x => by rw [h1], rfl, rfl⟩

/-! ## C4: grouping by (fqdn, type) -/

/-- Updating the inner map appends the new datum to exactly the
updated type's slice. -/
theorem findTM_updateTypeMap (s : TypeMap) (ty d ty' : String) :
    findTM (updateTypeMap s ty d) ty' =
      if ty' = ty then findTM s ty' ++ [d] else findTM s ty' := by
  induction s with
  | nil =>
    by_cases h : ty' = ty
    · subst h; simp [updateTypeMap, findTM]
    · have h' : ¬ty = ty' := fun hh => h hh.symm
      simp [updateTypeMap, findTM, h, h']
  | cons p rest ih =>
    obtain ⟨t, vs⟩ := p
    by_cases h1 : t = ty
    · subst h1
      by_cases h2 : ty' = t
      · subst h2; simp [updateTypeMap, findTM]
      · have h2' : ¬t = ty' := fun hh => h2 hh.symm
        simp [updateTypeMap, findTM, h2, h2']
    · by_cases h2 : t = ty'
      · subst h2
        simp [updateTypeMap, findTM, h1]
      · simp [updateTypeMap, findTM, h1, h2, ih]

/-- Updating the outer map updates exactly the updated fqdn's inner
map (an absent fqdn behaves as the empty inner map). -/
theorem findRM_updateRecordMap (m : RecordMap) (fq ty d fq' : String) :
    findRM (updateRecordMap m fq ty d) fq' =
      if fq' = fq then updateTypeMap (findRM m fq) ty d
      else findRM m fq' := by
  induction m with
  | nil =>
    by_cases h : fq' = fq
    · subst h; simp [updateRecordMap, findRM, updateTypeMap]
    · have h' : ¬fq = fq' := fun hh => h hh.symm
      simp [updateRecordMap, findRM, h, h']
  | cons p rest ih =>
    obtain ⟨f, s⟩ := p
    by_cases h1 : f = fq
    · subst h1
      by_cases h2 : fq' = f
      · subst h2; simp [updateRecordMap, findRM]
      · have h2' : ¬f = fq' := fun hh => h2 hh.symm
        simp [updateRecordMap, findRM, h2, h2']
    · by_cases h2 : f = fq'
      · subst h2
        simp [updateRecordMap, findRM, h1]
      · simp [updateRecordMap, findRM, h1, h2, ih]

/-- One row's effect on the `(fq, ty)` group's values slice. -/
theorem processRow_values (root : String) (m : RecordMap)
    (r : DomainRecord) (fq ty : String) :
    findTM (findRM (processRow root m r) fq) ty =
      findTM (findRM m fq) ty ++
        (if rowKeyIs root fq ty r then [r.data] else []) := by
  unfold processRow
  rw [findRM_updateRecordMap]
  cases hk : rowKeyIs root fq ty r with
  | true =>
    have hft : rowFqdn root r = fq ∧ r.type = ty := by
      simpa [rowKeyIs] using hk
    obtain ⟨hf, ht⟩ := hft
    subst hf; subst ht
    simp [findTM_updateTypeMap, hk]
  | false =>
    have hk' : rowFqdn root r = fq → ¬r.type = ty := by
      intro hf ht
      have htrue : rowKeyIs root fq ty r = true := by
        simp [rowKeyIs, hf, ht]
      rw [htrue] at hk
      exact absurd hk (by simp)
    by_cases hf : fq = rowFqdn root r
    · have ht : ¬ty = r.type := fun ht => hk' hf.symm ht.symm
      rw [if_pos hf, findTM_updateTypeMap, if_neg ht, ← hf]
      simp [hk]
    · rw [if_neg hf]
      simp [hk]

/-- After folding a listing, the `(fq, ty)` slice holds exactly the
data values of the group's rows, in encounter order. -/
theorem processRows_values (root : String) (rows : List DomainRecord) :
    ∀ (m : RecordMap) (fq ty : String),
      findTM (findRM (processRows root m rows) fq) ty =
        findTM (findRM m fq) ty ++
          (rows.filter (rowKeyIs root fq ty)).map (fun r => r.data) := by
  induction rows with
  | nil => intro m fq ty; simp [processRows]
  | cons r rest ih =>
    intro m fq ty
    have hstep : processRows root m (r :: rest) =
        processRows root (processRow root m r) rest := by
      simp [processRows]
    rw [hstep, ih, processRow_values]
    cases hk : rowKeyIs root fq ty r <;> simp [List.filter_cons, hk]

/-- Inner update's key list: unchanged when the type is present,
extended by the new type at the end otherwise. -/
theorem updateTypeMap_keys (s : TypeMap) (ty d : String) :
    (updateTypeMap s ty d).map Prod.fst =
      if ty ∈ s.map Prod.fst then s.map Prod.fst
      else s.map Prod.fst ++ [ty] := by
  induction s with
  | nil => simp [updateTypeMap]
  | cons p rest ih =>
    obtain ⟨t, vs⟩ := p
    by_cases h : t = ty
    · subst h; simp [updateTypeMap]
    · have h' : ¬ty = t := fun hh => h hh.symm
      by_cases h2 : ty ∈ rest.map Prod.fst <;>
        simp [updateTypeMap, h, h', h2, ih]

/-- Inner update preserves nonemptiness of every value slice. -/
theorem updateTypeMap_values_ne_nil (s : TypeMap) (ty d : String)
    (h : ∀ q ∈ s, q.2 ≠ []) :
    ∀ q ∈ updateTypeMap s ty d, q.2 ≠ [] := by
  induction s with
  | nil =>
    intro q hq
    simp [updateTypeMap] at hq
    subst hq; simp
  | cons p rest ih =>
    obtain ⟨t, vs⟩ := p
    intro q hq
    by_cases ht : t = ty
    · subst ht
      simp only [updateTypeMap, if_pos rfl] at hq
      rcases List.mem_cons.mp hq with h1 | h2
      · subst h1; simp
      · exact h q (List.mem_cons_of_mem _ h2)
    · simp only [updateTypeMap, if_neg ht] at hq
      rcases List.mem_cons.mp hq with h1 | h2
      · subst h1; exact h (t, vs) (List.mem_cons_self _ _)
      · exact ih (fun q' hq' => h q' (List.mem_cons_of_mem _ hq')) q h2

/-- Inner update preserves well-formedness. -/
theorem WFTM_updateTypeMap {s : TypeMap} (h : WFTM s) (ty d : String) :
    WFTM (updateTypeMap s ty d) := by
  obtain ⟨hnd, hne⟩ := h
  refine ⟨?_, updateTypeMap_values_ne_nil s ty d hne⟩
  rw [updateTypeMap_keys]
  by_cases hm : ty ∈ s.map Prod.fst
  · simpa [hm] using hnd
  · simp [hm, List.nodup_append, hnd]

/-- Outer update's key list: unchanged when the fqdn is present,
extended by the new fqdn at the end otherwise. -/
theorem updateRecordMap_keys (m : RecordMap) (fq ty d : String) :
    (updateRecordMap m fq ty d).map Prod.fst =
      if fq ∈ m.map Prod.fst then m.map Prod.fst
      else m.map Prod.fst ++ [fq] := by
  induction m with
  | nil => simp [updateRecordMap]
  | cons p rest ih =>
    obtain ⟨f, s⟩ := p
    by_cases h : f = fq
    · subst h; simp [updateRecordMap]
    · have h' : ¬fq = f := fun hh => h hh.symm
      by_cases h2 : fq ∈ rest.map Prod.fst <;>
        simp [updateRecordMap, h, h', h2, ih]

/-- Outer update leaves every inner map well-formed. -/
theorem updateRecordMap_WFTM (m : RecordMap) (fq ty d : String)
    (h : ∀ p ∈ m, WFTM p.2) :
    ∀ p ∈ updateRecordMap m fq ty d, WFTM p.2 := by
  induction m with
  | nil =>
    intro p hp
    simp [updateRecordMap] at hp
    subst hp
    exact ⟨by simp, by simp⟩
  | cons p0 rest ih =>
    obtain ⟨f, s⟩ := p0
    intro p hp
    by_cases hf : f = fq
    · subst hf
      simp only [updateRecordMap, if_pos rfl] at hp
      rcases List.mem_cons.mp hp with h1 | h2
      · subst h1
        exact WFTM_updateTypeMap (h (f, s) (List.mem_cons_self _ _)) ty d
      · exact h p (List.mem_cons_of_mem _ h2)
    · simp only [updateRecordMap, if_neg hf] at hp
      rcases List.mem_cons.mp hp with h1 | h2
      · subst h1; exact h (f, s) (List.mem_cons_self _ _)
      · exact ih (fun p' hp' => h p' (List.mem_cons_of_mem _ hp')) p h2

/-- Outer update preserves well-formedness. -/
theorem WFRM_updateRecordMap {m : RecordMap} (h : WFRM m) (fq ty d : String) :
    WFRM (updateRecordMap m fq ty d) := by
  obtain ⟨hnd, hin⟩ := h
  refine ⟨?_, updateRecordMap_WFTM m fq ty d hin⟩
  rw [updateRecordMap_keys]
  by_cases hm : fq ∈ m.map Prod.fst
  · simpa [hm] using hnd
  · simp [hm, List.nodup_append, hnd]

/-- Folding a listing preserves well-formedness of the record map. -/
theorem WFRM_processRows (root : String) (rows : List DomainRecord) :
    ∀ (m : RecordMap), WFRM m → WFRM (processRows root m rows) := by
  induction rows with
  | nil => intro m h; simpa [processRows] using h
  | cons r rest ih =>
    intro m h
    have hstep : processRows root m (r :: rest) =
        processRows root (processRow root m r) rest := by
      simp [processRows]
    rw [hstep]
    exact ih (processRow root m r) (WFRM_updateRecordMap h _ _ _)

/-- Membership in the emitted record list, in terms of the map. -/
theorem mem_toDnsRecords {ttl : Int} {m : RecordMap} {rec : DnsRecord} :
    rec ∈ toDnsRecords ttl m ↔
      ∃ s, (rec.fqdn, s) ∈ m ∧ (rec.type, rec.records) ∈ s ∧
        rec.ttl = ttl := by
  unfold toDnsRecords
  rw [List.mem_flatMap]
  constructor
  · rintro ⟨p, hp, hq⟩
    rw [List.mem_map] at hq
    obtain ⟨q, hq, hrec⟩ := hq
    subst hrec
    exact ⟨p.2, by simpa using hp, by simpa using hq, rfl⟩
  · rintro ⟨s, hs, hq, httl⟩
    refine ⟨(rec.fqdn, s), hs, ?_⟩
    rw [List.mem_map]
    refine ⟨(rec.type, rec.records), hq, ?_⟩
    cases rec
    simp_all

/-- With distinct outer keys, lookup agrees with membership. -/
theorem findRM_eq_of_mem {m : RecordMap} (hnd : (m.map Prod.fst).Nodup)
    {fq : String} {s : TypeMap} (h : (fq, s) ∈ m) : findRM m fq = s := by
  induction m with
  | nil => simp at h
  | cons p rest ih =>
    obtain ⟨f, s'⟩ := p
    rw [List.map_cons, List.nodup_cons] at hnd
    rcases List.mem_cons.mp h with h1 | h2
    · rw [Prod.mk.injEq] at h1
      obtain ⟨rfl, rfl⟩ := h1
      simp [findRM]
    · have hne : ¬f = fq := by
        intro he; subst he
        exact hnd.1 (by simpa using List.mem_map_of_mem Prod.fst h2)
      simp only [findRM, if_neg hne]
      exact ih hnd.2 h2

/-- A nonempty lookup result is an entry of the map. -/
theorem mem_of_findRM (m : RecordMap) (fq : String)
    (h : findRM m fq ≠ []) : (fq, findRM m fq) ∈ m := by
  induction m with
  | nil => simp [findRM] at h
  | cons p rest ih =>
    obtain ⟨f, s⟩ := p
    by_cases he : f = fq
    · subst he
      simp [findRM]
    · simp only [findRM, if_neg he] at h ⊢
      exact List.mem_cons_of_mem _ (ih h)

/-- With distinct inner keys, lookup agrees with membership. -/
theorem findTM_eq_of_mem {s : TypeMap} (hnd : (s.map Prod.fst).Nodup)
    {ty : String} {vs : List String} (h : (ty, vs) ∈ s) :
    findTM s ty = vs := by
  induction s with
  | nil => simp at h
  | cons p rest ih =>
    obtain ⟨t, vs'⟩ := p
    rw [List.map_cons, List.nodup_cons] at hnd
    rcases List.mem_cons.mp h with h1 | h2
    · rw [Prod.mk.injEq] at h1
      obtain ⟨rfl, rfl⟩ := h1
      simp [findTM]
    · have hne : ¬t = ty := by
        intro he; subst he
        exact hnd.1 (by simpa using List.mem_map_of_mem Prod.fst h2)
      simp only [findTM, if_neg hne]
      exact ih hnd.2 h2

/-- A nonempty inner lookup result is an entry of the inner map. -/
theorem mem_of_findTM (s : TypeMap) (ty : String)
    (h : findTM s ty ≠ []) : (ty, findTM s ty) ∈ s := by
  induction s with
  | nil => simp [findTM] at h
  | cons p rest ih =>
    obtain ⟨t, vs⟩ := p
    by_cases he : t = ty
    · subst he
      simp [findTM]
    · simp only [findTM, if_neg he] at h ⊢
      exact List.mem_cons_of_mem _ (ih h)

/-- Every emitted record's fqdn is one of the map's outer keys. -/
theorem toDnsRecords_fqdn_mem {ttl : Int} {m : RecordMap} {rec : DnsRecord}
    (h : rec ∈ toDnsRecords ttl m) : rec.fqdn ∈ m.map Prod.fst := by
  rw [mem_toDnsRecords] at h
  obtain ⟨s, hs, _, _⟩ := h
  exact List.mem_map_of_mem Prod.fst hs

/-- On a well-formed map, the emitted records have pairwise distinct
(fqdn, type) pairs. -/
theorem toDnsRecords_pairwise (ttl : Int) :
    ∀ (m : RecordMap), WFRM m →
      (toDnsRecords ttl m).Pairwise
        (fun r1 r2 => ¬(r1.fqdn = r2.fqdn ∧ r1.type = r2.type)) := by
  intro m
  induction m with
  | nil => intro _; simp [toDnsRecords]
  | cons p rest ih =>
    intro hwf
    obtain ⟨f, s⟩ := p
    obtain ⟨hnd, hin⟩ := hwf
    rw [List.map_cons, List.nodup_cons] at hnd
    have hhead : WFTM s := hin (f, s) (List.mem_cons_self _ _)
    simp only [toDnsRecords, List.flatMap_cons]
    rw [List.pairwise_append]
    refine ⟨?_, ?_, ?_⟩
    · rw [List.pairwise_map]
      have hk := hhead.1
      rw [List.Nodup, List.pairwise_map] at hk
      exact hk.imp (fun hne hc => hne hc.2)
    · exact ih ⟨hnd.2, fun p' hp' => hin p' (List.mem_cons_of_mem _ hp')⟩
    · intro a ha b hb
      rw [List.mem_map] at ha
      obtain ⟨q, _, rfl⟩ := ha
      intro hc
      have hb' : b.fqdn ∈ rest.map Prod.fst := toDnsRecords_fqdn_mem hb
      have hfa : f = b.fqdn := hc.1
      rw [← hfa] at hb'
      exact hnd.1 hb'

/-- C4: in any listing, the canonical records group the backend rows by
(fqdn, type): every returned record carries the domain-wide TTL and
exactly the data values of its group's rows in encounter order (hence
nonempty), every row is represented by a record of its group, and no
two returned records share an (fqdn, type) pair. -/
theorem getRecords_grouping (root : String) (ttl : Int)
    (rows : List DomainRecord) :
    (∀ rec ∈ (GetRecords root ttl [rows]).1,
        rec.ttl = ttl ∧
        rec.records =
          (rows.filter (rowKeyIs root rec.fqdn rec.type)).map
            (fun r => r.data) ∧
        rec.records ≠ []) ∧
    (∀ r ∈ rows, ∃ rec ∈ (GetRecords root ttl [rows]).1,
        rec.fqdn = rowFqdn root r ∧ rec.type = r.type) ∧
    ((GetRecords root ttl [rows]).1).Pairwise
      (fun r1 r2 => ¬(r1.fqdn = r2.fqdn ∧ r1.type = r2.type)) := by
  have hm : (GetRecords root ttl [rows]).1 =
      toDnsRecords ttl (processRows root [] rows) := rfl
  have hwf : WFRM (processRows root [] rows) :=
    WFRM_processRows root rows [] ⟨by simp, by simp⟩
  refine ⟨?_, ?_, ?_⟩
  · intro rec hrec
    rw [hm, mem_toDnsRecords] at hrec
    obtain ⟨s, hs, hq, httl⟩ := hrec
    have hfind : findRM (processRows root [] rows) rec.fqdn = s :=
      findRM_eq_of_mem hwf.1 hs
    have hwfs : WFTM s := hwf.2 (rec.fqdn, s) hs
    have hfindT : findTM s rec.type = rec.records :=
      findTM_eq_of_mem hwfs.1 hq
    have hv := processRows_values root rows [] rec.fqdn rec.type
    rw [hfind, hfindT] at hv
    refine ⟨httl, ?_, hwfs.2 (rec.type, rec.records) hq⟩
    simpa [findRM, findTM] using hv
  · intro r hr
    have hv := processRows_values root rows [] (rowFqdn root r) r.type
    have hveq : findTM (findRM (processRows root [] rows)
        (rowFqdn root r)) r.type =
        (rows.filter (rowKeyIs root (rowFqdn root r) r.type)).map
          (fun x => x.data) := by
      simpa [findRM, findTM] using hv
    have hrk : rowKeyIs root (rowFqdn root r) r.type r = true := by
      simp [rowKeyIs]
    have hmem : r.data ∈ findTM (findRM (processRows root [] rows)
        (rowFqdn root r)) r.type := by
      rw [hveq]
      exact List.mem_map_of_mem _ (List.mem_filter.mpr ⟨hr, hrk⟩)
    have hvne : findTM (findRM (processRows root [] rows)
        (rowFqdn root r)) r.type ≠ [] :=
      List.ne_nil_of_mem hmem
    have hsne : findRM (processRows root [] rows) (rowFqdn root r) ≠ [] := by
      intro h0
      rw [h0] at hvne
      exact hvne (by simp [findTM])
    refine ⟨⟨rowFqdn root r,
      findTM (findRM (processRows root [] rows) (rowFqdn root r)) r.type,
      r.type, ttl⟩, ?_, rfl, rfl⟩
    rw [hm, mem_toDnsRecords]
    exact ⟨findRM (processRows root [] rows) (rowFqdn root r),
      mem_of_findRM _ _ hsne, mem_of_findTM _ _ hvne, rfl⟩
  · rw [hm]
    exact toDnsRecords_pairwise ttl _ hwf

/-- Witness for C4 at the spec's example: the two `www`/`A` rows form
one record with both values in encounter order. -/
theorem getRecords_grouping_witness :
    recWgroup.ttl = 1800 ∧
    recWgroup.records =
      (rowsW.filter
          (rowKeyIs "example.com" recWgroup.fqdn recWgroup.type)).map
        (fun r => r.data) ∧
    recWgroup.records ≠ [] :=
  (getRecords_grouping "example.com" 1800 rowsW).1 recWgroup (by decide)

end DigitalOcean
